import Mathlib

/-!
Verification of `unified_crawler.py` (repository Li2zon3/unified-crawler).

Shallow embedding conventions used throughout this development:

* Dates are integer day numbers (`Int`).  The source manipulates
  `"YYYY-MM-DD"` strings through `datetime` arithmetic; that encoding is an
  order isomorphism onto days, and `strptime`/`strftime` round-trip
  losslessly, so string equality/compares coincide with day-number
  equality/compares.  The midpoint expression
  `(dt_start + (dt_end - dt_start) / 2).strftime("%Y-%m-%d")` computes
  `start + floor((end - start) / 2)` days: halving a `timedelta` is exact
  (microsecond resolution) and taking the date drops a possible 12-hour
  remainder.  Lean's `Int` division `/` is euclidean division, which for
  the positive divisor `2` is exactly floor division, hence matches Python.
* File contents are byte lists (`List Nat`); a filesystem is either the
  content at the single path a function touches (`Option (List Nat)`) or a
  map `String → Option (List Nat)`; `os.path.getsize` is `List.length`,
  `os.remove` sets the entry to `none`, a write replaces the entry.
* Network traffic is an explicit environment: a list of per-request
  outcomes consumed in order, so "number of network calls" is the number
  of environment entries consumed.
* Functions whose Python originals need not terminate (the recursive
  bisection) are embedded with fuel: `none` means "did not terminate
  within the given fuel"; divergence is `= none` for every fuel.
-/

namespace UnifiedCrawler

/-- Per-query ceiling of the SSE search API: `run_recursive` bisects whenever
`check_total_count` reports strictly more than 4800 results. -/
def CEILING : Nat := 4800

/-- A window of whole days handed from the planner to the fetch engine.
`wStart`/`wEnd` are the day numbers of `start_date`/`end_date`. -/
structure TimeWindow where
  wStart : Int
  wEnd : Int
deriving DecidableEq, Repr

/-- Midpoint date computed by `SSESearchCrawler.run_recursive`:
`mid = (dt_start + (dt_end - dt_start) / 2).strftime("%Y-%m-%d")`. -/
def midDate (s e : Int) : Int := s + (e - s) / 2

/-- The adjusted split point: the source guard `if mid == end_date: mid = start_date`. -/
def splitMid (s e : Int) : Int := if midDate s e = e then s else midDate s e

/-- Fuel-indexed evaluation of `SSESearchCrawler.run_recursive`, parameterised by
the total-count oracle `total` (the value `check_total_count` reports for a
window).  The result is the ordered list of leaf windows on which the source
calls `search_all` (a window with `total == 0` contributes nothing; a window
with `0 < total ≤ 4800` is one leaf; otherwise the source recurses on
`[start, mid]` and then on `[mid+1, end]`, left argument first).  `none`
means the recursion did not terminate within `fuel` calls of depth budget;
a computation that is `none` for every fuel diverges (in Python: unbounded
self-recursion ending in `RecursionError`). -/
def runRecursive (total : Int → Int → Nat) : Nat → Int → Int → Option (List TimeWindow)
  | 0, _, _ => none
  | fuel + 1, s, e =>
    let t := total s e
    if t = 0 then some []
    else if CEILING < t then
      match runRecursive total fuel s (splitMid s e) with
      | none => none
      | some l1 =>
        match runRecursive total fuel (splitMid s e + 1) e with
        | none => none
        | some l2 => some (l1 ++ l2)
    else some [⟨s, e⟩]

/-- A total-count oracle is additive when the count of a window is the sum of
the counts of any two-way split into adjacent sub-windows (the property a
real, race-free search backend satisfies). -/
def AdditiveTotal (total : Int → Int → Nat) : Prop :=
  ∀ s m e : Int, s ≤ m → m < e → total s e = total s m + total (m + 1) e

/-- Sum of a per-day mass over `n` consecutive days starting at `s`. -/
def sumMass (mass : Int → Nat) : Int → Nat → Nat
  | _, 0 => 0
  | s, n + 1 => mass s + sumMass mass (s + 1) n

/-- The canonical additive total built from a per-day mass: the count of
window `[s, e]` is the sum of the daily masses, `0` on an inverted window. -/
def intervalTotal (mass : Int → Nat) (s e : Int) : Nat :=
  if s ≤ e then sumMass mass s ((e - s).toNat + 1) else 0

/-- Call-tree relation of `run_recursive`: `Reaches total s e s' e'` holds when
evaluating `run_recursive(s, e)` invokes `run_recursive(s', e')` (including
the root call itself).  Faithful to Python's strict left-to-right
evaluation of `self.run_recursive(start_date, mid) +
self.run_recursive(next_day, end_date)`: the right sibling is invoked only
after the left call has terminated, which the `right` constructor records
as an explicit termination premise. -/
inductive Reaches (total : Int → Int → Nat) : Int → Int → Int → Int → Prop
  | here (s e : Int) : Reaches total s e s e
  | left {s e s' e' : Int} :
      CEILING < total s e →
      Reaches total s (splitMid s e) s' e' →
      Reaches total s e s' e'
  | right {s e s' e' : Int} :
      CEILING < total s e →
      (∃ fuel L, runRecursive total fuel s (splitMid s e) = some L) →
      Reaches total (splitMid s e + 1) e s' e' →
      Reaches total s e s' e'

/-- Day-mass for the C2 counterexample: days 2 and 3 carry 3000 results each,
all other days carry none. -/
def exMass (d : Int) : Nat := if d = 2 then 3000 else if d = 3 then 3000 else 0

/-- The additive total-count oracle induced by `exMass`. -/
def exTotal : Int → Int → Nat := intervalTotal exMass

/-! ### Shared byte/string utilities

`b'needle' in body` (Python bytes containment) and `'text/html' in ct`
(Python substring containment). -/

/-- Test whether `needle` occurs at the head of `hay`
(empty needle matches anything). -/
def bytesLead : List Nat → List Nat → Bool
  | [], _ => true
  | _ :: _, [] => false
  | a :: as, b :: bs => a == b && bytesLead as bs

/-- Python `needle in hay` on byte strings: `needle` occurs contiguously
somewhere in `hay`. -/
def bytesContains (needle : List Nat) : List Nat → Bool
  | [] => bytesLead needle []
  | b :: rest => bytesLead needle (b :: rest) || bytesContains needle rest

/-- Python `'text/html' in ct`: the Content-Type string contains the
substring `text/html` (true iff splitting on it yields more than one part). -/
def containsTextHtml (ct : String) : Bool :=
  decide (1 < (ct.splitOn "text/html").length)

/-- ASCII lower-casing of one byte, as Python `bytes.lower` does per byte. -/
def byteLower (b : Nat) : Nat := if 65 ≤ b ∧ b ≤ 90 then b + 32 else b

/-- The bytes of `%PDF` (the magic prefix tested by `body[:4] == b'%PDF'`). -/
def pdfMagic : List Nat := [37, 80, 68, 70]

/-- The bytes of `var arg1=` (first WAF challenge-script marker). -/
def wafMark1 : List Nat := [118, 97, 114, 32, 97, 114, 103, 49, 61]

/-- The bytes of `var _0x` (second WAF challenge-script marker). -/
def wafMark2 : List Nat := [118, 97, 114, 32, 95, 48, 120]

/-- The bytes of `<html` (HTML detection marker). -/
def htmlTag : List Nat := [60, 104, 116, 109, 108]

/-- Boolean validity check used by the existence short-circuits:
the path holds a file of size strictly above `threshold`. -/
def validSize (threshold : Nat) (fs : String → Option (List Nat)) (path : String) : Bool :=
  match fs path with
  | some c => decide (threshold < c.length)
  | none => false

/-! ### `SSEInquiriesScraper._download_file` (lines 750-809)

The function touches exactly one path, so the filesystem state is the
optional content at that path.  Each loop iteration performs one primary
request whose outcome is one `NetResult` (`raise` covers request
exceptions and `raise_for_status` failures; the throw-away pre-visit
request is wrapped in `try/except: pass` and has no observable effect).
The source runs `max_retries = 3` attempts, i.e. the environment list has
three entries; the embedding is defined for any length. -/

/-- Outcome of one primary request of `SSEInquiriesScraper._download_file`. -/
inductive NetResult where
  | raise
  | resp (contentType : String) (content : List Nat)
deriving DecidableEq, Repr

/-- Result status of a download-engine call: skipped by the existence
short-circuit, terminal success, or terminal failure. -/
inductive DlOutcome where
  | skipped
  | succeeded
  | failed
deriving DecidableEq, Repr

/-- One attempt body of `SSEInquiriesScraper._download_file`: reject an HTML
response below 10000 bytes before writing; otherwise write the body, then
delete it again and fail if its size is below 1000.  Returns the new state
at the target path and whether the attempt returned success. -/
def sseAttempt (fs : Option (List Nat)) : NetResult → Option (List Nat) × Bool
  | NetResult.raise => (fs, false)
  | NetResult.resp ct content =>
    if containsTextHtml ct ∧ content.length < 10000 then (fs, false)
    else if content.length < 1000 then (none, false)
    else (some content, true)

/-- The retry loop of `SSEInquiriesScraper._download_file`: run attempts in
order, return on the first success, fail after the last attempt.  The
third component counts the environment entries consumed (network attempts
actually executed). -/
def sseLoop (fs : Option (List Nat)) : List NetResult → Option (List Nat) × DlOutcome × Nat
  | [] => (fs, DlOutcome.failed, 0)
  | r :: rest =>
    match sseAttempt fs r with
    | (fs2, true) => (fs2, DlOutcome.succeeded, 1)
    | (fs2, false) =>
      match rest with
      | [] => (fs2, DlOutcome.failed, 1)
      | _ :: _ =>
        let out := sseLoop fs2 rest
        (out.1, out.2.1, out.2.2 + 1)

/-- `SSEInquiriesScraper._download_file`: if the target already exists with
size above 1000 return the skip result without any network activity;
an existing smaller file is deleted first; then the retry loop runs. -/
def sseDownloadFile (fs : Option (List Nat)) (net : List NetResult) :
    Option (List Nat) × DlOutcome × Nat :=
  match fs with
  | some c =>
    if 1000 < c.length then (some c, DlOutcome.skipped, 0)
    else sseLoop none net
  | none => sseLoop none net

/-! ### `CninfoSearchDownloader._download_file` (lines 1455-1484) -/

/-- Outcome of one request of `CninfoSearchDownloader._download_file`. -/
inductive CniNet where
  | raise
  | resp (status : Nat) (contentType : String) (content : List Nat)
deriving DecidableEq, Repr

/-- The HTML-response test of `CninfoSearchDownloader._download_file`:
`'text/html' in ctype and len(content) < 50000 and b'<html' in
content[:2000].lower()` (the Content-Type is lower-cased by the source). -/
def cniLooksHtml (ct : String) (content : List Nat) : Bool :=
  containsTextHtml ct.toLower && decide (content.length < 50000) &&
    bytesContains htmlTag ((content.take 2000).map byteLower)

/-- One attempt of `CninfoSearchDownloader._download_file`.  `some true` is
an immediate success return, `some false` an immediate terminal failure
(HTTP 404/410), `none` means the loop continues with the next attempt.
On HTTP 200 a non-HTML body is written, then removed again if its size is
not above 1024 bytes. -/
def cniAttempt (fs : Option (List Nat)) : CniNet → Option (List Nat) × Option Bool
  | CniNet.raise => (fs, none)
  | CniNet.resp status ct content =>
    if status = 200 then
      if cniLooksHtml ct content then (fs, none)
      else if 1024 < content.length then (some content, some true)
      else (none, none)
    else if status = 404 ∨ status = 410 then (fs, some false)
    else (fs, none)

/-- The retry loop of `CninfoSearchDownloader._download_file`
(`for attempt in range(max_retries)`, failure after the last attempt).
Third component counts consumed attempts. -/
def cniLoop (fs : Option (List Nat)) : List CniNet → Option (List Nat) × Bool × Nat
  | [] => (fs, false, 0)
  | r :: rest =>
    match cniAttempt fs r with
    | (fs2, some b) => (fs2, b, 1)
    | (fs2, none) =>
      let out := cniLoop fs2 rest
      (out.1, out.2.1, out.2.2 + 1)

/-- `CninfoSearchDownloader._download_file` on the content at its single
target path (the function has no existence short-circuit of its own; its
caller `download_from_index` performs that check). -/
def cniDownloadFile (fs : Option (List Nat)) (net : List CniNet) :
    Option (List Nat) × Bool × Nat :=
  cniLoop fs net

/-! ### `CninfoSearchDownloader.download_from_index` (lines 1486-1593)

The record fields actually read by the function; the filename derivation
`_build_local_filename` is passed as an abstract deterministic function
`lf` (its string munging is irrelevant to every claim, which only needs
that each record determines one target path).  The worker pool is
modelled sequentially: out-of-order completion only permutes the report
rows of executed tasks, and the claims proved here concern runs with no
tasks at all. -/

/-- The index-record fields read by `download_from_index`. -/
structure CniRecord where
  announcementId : String
  downloadUrlStatic : String
  adjunctUrl : String
  secCode : String
  secName : String
  announcementDate : String
deriving DecidableEq, Repr

/-- One row of the download report. -/
structure ReportRow where
  announcementId : String
  secCode : String
  secName : String
  announcementDate : String
  downloadUrlStatic : String
  localFilename : String
  status : String
  error : String
  filePath : String
deriving DecidableEq, Repr

/-- Python `a or b` on strings: the first operand unless it is empty. -/
def pyOr (a b : String) : String := if a = "" then b else a

/-- `str(record.get('announcement_id') or record.get('download_url_static')
or '').strip()`. -/
def cniKey (r : CniRecord) : String := (pyOr r.announcementId r.downloadUrlStatic).trim

/-- `str(record.get('download_url_static') or record.get('adjunct_url')
or '').strip()`. -/
def cniUrl (r : CniRecord) : String := (pyOr r.downloadUrlStatic r.adjunctUrl).trim

/-- Report row for a record whose key was already seen. -/
def dupKeyRow (r : CniRecord) : ReportRow :=
  ⟨r.announcementId, r.secCode, r.secName, r.announcementDate,
    r.downloadUrlStatic, "", "skip", "duplicate_key", ""⟩

/-- Report row for a record without any usable URL. -/
def missUrlRow (r : CniRecord) (lfn path : String) : ReportRow :=
  ⟨r.announcementId, r.secCode, r.secName, r.announcementDate,
    "", lfn, "skip", "missing_url", path⟩

/-- Report row for a record whose artifact already exists above 1024 bytes. -/
def existsRow (r : CniRecord) (url lfn path : String) : ReportRow :=
  ⟨r.announcementId, r.secCode, r.secName, r.announcementDate,
    url, lfn, "skip", "", path⟩

/-- Report row for an executed download task.  The error text of a failed
task is abstracted to `"err"`: every claim depends only on the status. -/
def taskRow (r : CniRecord) (url lfn path : String) (ok : Bool) : ReportRow :=
  ⟨r.announcementId, r.secCode, r.secName, r.announcementDate,
    url, lfn, if ok then "success" else "fail",
    if ok then "" else "err", path⟩

/-- The pre-scan of `download_from_index`: walk the records keeping the set
of seen keys, emitting a skip row for duplicate keys, missing URLs and
already-valid artifacts, and queueing a download task otherwise.
Returns the skip rows and the task list, both in record order. -/
def cniScan (lf : CniRecord → String) (filesDir : String)
    (fs : String → Option (List Nat)) :
    List CniRecord → List String →
    List ReportRow × List (CniRecord × String × String × String)
  | [], _ => ([], [])
  | r :: rest, seen =>
    let key := cniKey r
    if key ≠ "" ∧ key ∈ seen then
      let out := cniScan lf filesDir fs rest seen
      (dupKeyRow r :: out.1, out.2)
    else
      let seen2 := if key ≠ "" then key :: seen else seen
      let url := cniUrl r
      let lfn := lf r
      let path := filesDir ++ "/" ++ lfn
      if url = "" then
        let out := cniScan lf filesDir fs rest seen2
        (missUrlRow r lfn path :: out.1, out.2)
      else if validSize 1024 fs path then
        let out := cniScan lf filesDir fs rest seen2
        (existsRow r url lfn path :: out.1, out.2)
      else
        let out := cniScan lf filesDir fs rest seen2
        (out.1, (r, url, lfn, path) :: out.2)

/-- Execution of the queued tasks (worker pool modelled sequentially): each
task runs `_download_file` against its path, updating the filesystem map;
returns the task report rows, the final filesystem and the total number
of network attempts consumed. -/
def cniExec (net : CniRecord → List CniNet) :
    List (CniRecord × String × String × String) → (String → Option (List Nat)) →
    List ReportRow × (String → Option (List Nat)) × Nat
  | [], fs => ([], fs, 0)
  | (r, url, lfn, path) :: rest, fs =>
    let res := cniDownloadFile (fs path) (net r)
    let fs2 := fun p => if p = path then res.1 else fs p
    let out := cniExec net rest fs2
    (taskRow r url lfn path res.2.1 :: out.1, out.2.1, res.2.2 + out.2.2)

/-- `CninfoSearchDownloader.download_from_index`: scan then execute.
Returns (report rows, final filesystem, network attempts consumed). -/
def downloadFromIndex (lf : CniRecord → String) (filesDir : String)
    (fs : String → Option (List Nat)) (records : List CniRecord)
    (net : CniRecord → List CniNet) :
    List ReportRow × (String → Option (List Nat)) × Nat :=
  let scan := cniScan lf filesDir fs records []
  let ex := cniExec net scan.2 fs
  (scan.1 ++ ex.1, ex.2.1, ex.2.2)

/-! ### `SSEInquiriesScraper.verify_and_retry` (lines 862-939)

Only the classification and failure-log phases are modelled (the claim's
subject); the interactive retry prompt that follows a non-empty gap set
re-enters `_download_file`, which is modelled above. -/

/-- The record fields read by `verify_and_retry`. -/
structure InqRecord where
  url : String
  localFilename : String
deriving DecidableEq, Repr

/-- Validity of a record's artifact, exactly as the source tests it:
the file at `files_dir/local_filename` exists with size above 1000. -/
def inqValid (fs : String → Option (List Nat)) (filesDir : String) (r : InqRecord) : Bool :=
  validSize 1000 fs (filesDir ++ "/" ++ r.localFilename)

/-- The classification loop of `verify_and_retry`: records without a URL are
skipped entirely; records with a valid artifact bump `valid_count`; the
rest are appended to `missing_records` in order. -/
def verifyClassify (fs : String → Option (List Nat)) (filesDir : String) :
    List InqRecord → Nat × List InqRecord
  | [] => (0, [])
  | r :: rest =>
    if r.url = "" then verifyClassify fs filesDir rest
    else if inqValid fs filesDir r then
      let out := verifyClassify fs filesDir rest
      (out.1 + 1, out.2)
    else
      let out := verifyClassify fs filesDir rest
      (out.1, r :: out.2)

/-- One line of the failure log: `f"{item['local_filename']}: {item['url']}"`. -/
def gapLine (r : InqRecord) : String := r.localFilename ++ ": " ++ r.url

/-- Failure-log state after `verify_and_retry` (retry prompt declined): with
gaps, the log is opened in mode `w` and holds exactly the gap lines,
regardless of its previous content; with no gaps, the log file is removed,
so the clean state is the absence of the file (`none`). -/
def verifyLogAfter (fs : String → Option (List Nat)) (filesDir : String)
    (records : List InqRecord) (prevLog : Option (List String)) : Option (List String) :=
  let gaps := (verifyClassify fs filesDir records).2
  if gaps.isEmpty then none else some (gaps.map gapLine)

/-! ### `SSEInquiriesScraper.search_all` (lines 577-632) and
`SSESearchCrawler.search_all` (lines 226-268)

The environment is the list of per-request outcomes in the order the
requests are issued.  Page items are `Option α` because `_parse_item`
can return `None` on a falsy item, which the source drops. -/

/-- Outcome of one page request of `SSEInquiriesScraper.search_all`:
a request exception, a body that fails to unwrap/parse
(`parse_jsonp` returns `None`), or a parsed page with its result items. -/
inductive InqResp (α : Type) where
  | exn
  | badBody
  | page (items : List (Option α))
deriving DecidableEq, Repr

/-- Python `max_pages and page >= max_pages` (both `None` and `0` are falsy). -/
def mpStop (maxPages : Option Nat) (page : Nat) : Bool :=
  match maxPages with
  | none => false
  | some m => decide (0 < m) && decide (m ≤ page)

/-- The drain loop of `SSEInquiriesScraper.search_all`, starting at page 1
with `errors = 0`.  An exception or an unparseable body increments the
consecutive-error counter, stops returning the accumulated records once it
reaches 5, and otherwise retries (the same page; a fixed `sleep(3)` has no
observable effect).  A parsed page with no results ends the drain; a page
with results appends them, resets the counter, and the loop ends after the
declared last page (or the `max_pages` cap).  `none` means the trace `env`
ended before the loop did. -/
def inqLoop {α : Type} (totalPages : Nat) (maxPages : Option Nat) :
    List (InqResp α) → Nat → Nat → List α → Option (List α)
  | [], _, _, _ => none
  | InqResp.exn :: env, page, errors, acc =>
    if 5 ≤ errors + 1 then some acc
    else inqLoop totalPages maxPages env page (errors + 1) acc
  | InqResp.badBody :: env, page, errors, acc =>
    if 5 ≤ errors + 1 then some acc
    else inqLoop totalPages maxPages env page (errors + 1) acc
  | InqResp.page items :: env, page, errors, acc =>
    if items.isEmpty then some acc
    else
      let acc2 := acc ++ items.filterMap id
      if totalPages ≤ page then some acc2
      else if mpStop maxPages page then some acc2
      else inqLoop totalPages maxPages env (page + 1) 0 acc2

/-- Transient page failures in the sense of the spec: a request exception or
an unparseable body. -/
def isTransient {α : Type} : InqResp α → Bool
  | InqResp.exn => true
  | InqResp.badBody => true
  | InqResp.page _ => false

/-- Outcome of one page request of `SSESearchCrawler.search_all`: a request
exception, a body that fails to parse or carries a non-zero code
(`not data or data.get('code') != '0'`), or a parsed page with its
`knowledgeList` items and declared `totalPage`. -/
inductive SseResp (α : Type) where
  | exn
  | badBody
  | page (items : List (Option α)) (totalPage : Nat)
deriving DecidableEq, Repr

/-- The drain loop of `SSESearchCrawler.search_all`, starting at page 0.
An unparseable body breaks immediately (no retry); an exception sleeps and
retries the same page with no counter and no cap; a page with no items
breaks; otherwise items are appended and the loop ends once
`page >= total_page - 1`. -/
def sseSearchLoop {α : Type} : List (SseResp α) → Nat → List α → Option (List α)
  | [], _, _ => none
  | SseResp.exn :: env, page, acc => sseSearchLoop env page acc
  | SseResp.badBody :: _, _, acc => some acc
  | SseResp.page items tpg :: env, page, acc =>
    if items.isEmpty then some acc
    else
      let acc2 := acc ++ items.filterMap id
      if tpg - 1 ≤ page then some acc2
      else sseSearchLoop env (page + 1) acc2

/-! ### `_playwright_download_file` (lines 390-418) and `_solve_waf` (378-387) -/

/-- The bodies returned by the primary fetch and (if the challenge path
runs) by the single re-issued fetch of `_playwright_download_file`. -/
structure PwFetches where
  body1 : List Nat
  body2 : List Nat
deriving DecidableEq, Repr

/-- The challenge-page classification of `_playwright_download_file`:
a known challenge-script marker (`var arg1=` or `var _0x`), or a non-PDF
body below 6000 bytes containing `<html`. -/
def isWafBody (body : List Nat) : Bool :=
  bytesContains wafMark1 body || bytesContains wafMark2 body ||
    (!(body.take 4 == pdfMagic) && decide (body.length < 6000) &&
      bytesContains htmlTag body)

/-- `_playwright_download_file` (exception-free executions): classify the
first body; on a challenge, perform one `_solve_waf` navigation and one
re-issued fetch, accept the second body only if it starts with `%PDF`
(then the commit check passes and it is written), otherwise fail with the
post-challenge error leaving the path untouched; without a challenge,
commit iff the body starts with `%PDF` or is larger than 1000 bytes.
Returns (state at target path, success, navigations performed,
fetches performed). -/
def pwDownloadFile (env : PwFetches) (fs : Option (List Nat)) :
    Option (List Nat) × Bool × Nat × Nat :=
  if isWafBody env.body1 then
    if env.body2.take 4 == pdfMagic then (some env.body2, true, 1, 2)
    else (fs, false, 1, 2)
  else if env.body1.take 4 == pdfMagic || decide (1000 < env.body1.length) then
    (some env.body1, true, 0, 1)
  else (fs, false, 0, 1)

/-- A 1001-byte body of `0x01` bytes: no PDF magic, no challenge marker, and
large enough to pass the ordinary commit check `len(body) > 1000`. -/
def bigPlain : List Nat := List.replicate 1001 1

/-! ### `SSEInquiriesScraper.deduplicate_files` (lines 942-975) and
`calculate_md5` (lines 145-151)

`calculate_md5` reads the whole file in 4096-byte chunks, so it is a
function of the file's byte content; it is modelled as an uninterpreted
digest function `md5 : List Nat → String`.  The directory listing is the
ordered list of (filename, content) pairs; `seen_hashes` is the dict from
digest to first-seen filename. -/

/-- Lookup in the `seen_hashes` dict (keys are unique by construction, so
association-list lookup is exact). -/
def lookupHash : List (String × String) → String → Option String
  | [], _ => none
  | (k, v) :: rest, h => if k = h then some v else lookupHash rest h

/-- The scan loop of `deduplicate_files`: files below 100 bytes are skipped
without hashing; a file whose digest was already seen is reported as
(duplicate, first-seen original); otherwise its digest is recorded.
Pairs are produced in scan order. -/
def dedupScan (md5 : List Nat → String) :
    List (String × List Nat) → List (String × String) → List (String × String)
  | [], _ => []
  | (name, content) :: rest, seen =>
    if content.length < 100 then dedupScan md5 rest seen
    else
      match lookupHash seen (md5 content) with
      | some orig => (name, orig) :: dedupScan md5 rest seen
      | none => dedupScan md5 rest ((md5 content, name) :: seen)

/-- The `seen_hashes` dict after scanning a prefix of the directory. -/
def seenAfter (md5 : List Nat → String) :
    List (String × List Nat) → List (String × String) → List (String × String)
  | [], seen => seen
  | (name, content) :: rest, seen =>
    if content.length < 100 then seenAfter md5 rest seen
    else
      match lookupHash seen (md5 content) with
      | some _ => seenAfter md5 rest seen
      | none => seenAfter md5 rest ((md5 content, name) :: seen)

/-- First file in a listing whose size is at least 100 and whose digest is
`h`; its name is the canonical original for that digest. -/
def firstHashOwner (md5 : List Nat → String) (h : String) :
    List (String × List Nat) → Option String
  | [] => none
  | (name, content) :: rest =>
    if 100 ≤ content.length ∧ md5 content = h then some name
    else firstHashOwner md5 h rest

/-- First file in a listing whose size is at least 100 and whose content is
byte-identical to `c`. -/
def firstContentOwner (c : List Nat) : List (String × List Nat) → Option String
  | [] => none
  | (name, content) :: rest =>
    if 100 ≤ content.length ∧ content = c then some name
    else firstContentOwner c rest

/-- Concrete index record used by witnesses. -/
def wRec : CniRecord := ⟨"1", "u", "", "600000", "x", "2024-01-01"⟩

/-- Concrete empty filesystem used by witnesses. -/
def wVfs : String → Option (List Nat) := fun _ => none

/-- Concrete one-record set (with a URL, artifact missing) used by witnesses. -/
def wVrecs : List InqRecord := [⟨"u", "b.pdf"⟩]

/-- Concrete filesystem used by witnesses: one valid 1025-byte artifact. -/
def wFs : String → Option (List Nat) :=
  fun p => if p = "files/a.pdf" then some (List.replicate 1025 0) else none

/-- Concrete filename derivation used by witnesses. -/
def wLf : CniRecord → String := fun _ => "a.pdf"

/-- Concrete directory listing used by witnesses: two byte-identical
100-byte files. -/
def wDfiles : List (String × List Nat) :=
  [("a", List.replicate 100 7), ("b", List.replicate 100 7)]

/-! ### `CninfoSearchDownloader._normalize_page_size` (lines 1249-1255) and
the validation prologue of `CninfoSearchDownloader.run` (lines 1602-1622) -/

/-- `_normalize_page_size`: `none` models an input `int()` cannot parse
(the `except` branch substitutes 30), then `max(1, min(page_size, 30))`. -/
def normalizePageSize (ps : Option Int) : Int :=
  let v := match ps with
    | some n => n
    | none => 30
  max 1 (min v 30)

/-- Python `x is not None and x <= 0` on an optional integer. -/
def optNonpos (o : Option Int) : Bool :=
  match o with
  | some n => decide (n ≤ 0)
  | none => false

/-- The `ValueError` prologue of `CninfoSearchDownloader.run`: an unsupported
step, or a non-positive `max_pages`, `max_results` or `workers` aborts the
run; `page_size` is not validated here. -/
def cninfoRunCheck (step : String) (maxPages maxResults workers : Option Int) :
    Except String Unit :=
  if step ≠ "index" ∧ step ≠ "download" ∧ step ≠ "all" then
    Except.error "unsupported step"
  else if optNonpos maxPages then Except.error "max-pages must be positive"
  else if optNonpos maxResults then Except.error "max-results must be positive"
  else if optNonpos workers then Except.error "workers must be positive"
  else Except.ok ()

/-- The run prologue followed by the page-size normalisation performed inside
`search_and_build_index`.  The date defaulting/parsing that sits between
them in the source is abstracted to the boolean outcome `datesOk` (it does
not involve `page_size`). -/
def cninfoRunPageSize (step : String) (maxPages maxResults workers : Option Int)
    (datesOk : Bool) (pageSize : Option Int) : Except String Int :=
  match cninfoRunCheck step maxPages maxResults workers with
  | Except.error e => Except.error e
  | Except.ok _ =>
    if datesOk then Except.ok (normalizePageSize pageSize)
    else Except.error "invalid date"

/-! ## Theorems -/

/-! ### Planner: helper lemmas -/

/-- On a window that is strictly over the ceiling and equal on both ends, the
split point is the window itself, so `run_recursive` first re-invokes
itself on the identical single-day window: it returns within no fuel
bound, i.e. diverges. -/
theorem overCeiling_diag_none (total : Int → Int → Nat) (s : Int)
    (h : CEILING < total s s) : ∀ fuel, runRecursive total fuel s s = none := by
  intro fuel
  induction fuel with
  | zero => rfl
  | succ n ih =>
    have ht0 : ¬ total s s = 0 := by omega
    have hmid : splitMid s s = s := by
      simp [splitMid, midDate]
    simp only [runRecursive, hmid]
    rw [if_neg ht0, if_pos h, ih]

/-- Bounds on the midpoint of a strictly increasing window. -/
theorem midDate_bounds {s e : Int} (h : s < e) :
    s ≤ midDate s e ∧ midDate s e < e := by
  unfold midDate
  omega

/-- On a strictly increasing window the `mid == end_date` guard never fires. -/
theorem splitMid_of_lt {s e : Int} (h : s < e) : splitMid s e = midDate s e := by
  have hb := midDate_bounds h
  unfold splitMid
  exact if_neg (by omega)

/-- An additive total that vanishes on a window vanishes on each of its days. -/
theorem additive_zero_on_days (total : Int → Int → Nat)
    (hadd : AdditiveTotal total) :
    ∀ n : Nat, ∀ s e d : Int, (e - s).toNat = n → s ≤ d → d ≤ e →
      total s e = 0 → total d d = 0 := by
  intro n
  induction n with
  | zero =>
    intro s e d hn hsd hde h0
    have hds : d = s := by omega
    have hes : e = s := by omega
    subst hds
    subst hes
    exact h0
  | succ n ih =>
    intro s e d hn hsd hde h0
    have hlt : s < e := by omega
    have hsplit := hadd s s e (le_refl s) hlt
    by_cases hd : d = s
    · rw [hd]
      omega
    · exact ih (s + 1) e d (by omega) (by omega) hde (by omega)

/-- Simp interface for the successor-fuel unfolding of `runRecursive`. -/
theorem runRecursive_succ (total : Int → Int → Nat) (fuel : Nat) (s e : Int) :
    runRecursive total (fuel + 1) s e =
      (if total s e = 0 then some []
       else if CEILING < total s e then
         match runRecursive total fuel s (splitMid s e) with
         | none => none
         | some l1 =>
           match runRecursive total fuel (splitMid s e + 1) e with
           | none => none
           | some l2 => some (l1 ++ l2)
       else some [⟨s, e⟩]) := rfl

/-- Main correctness of the bisection under the two hypotheses that make it
terminate and additive: the produced leaves are contained in the root,
sorted and pairwise disjoint, their totals sum to the root total, every
leaf is within the ceiling, and any uncovered day of the root has zero
total (zero-total sub-windows are skipped). -/
theorem runRecursive_correct (total : Int → Int → Nat)
    (hadd : AdditiveTotal total) (hday : ∀ d : Int, total d d ≤ CEILING) :
    ∀ fuel : Nat, ∀ s e : Int, s ≤ e → (e - s).toNat < fuel →
      ∃ L, runRecursive total fuel s e = some L ∧
        (∀ w ∈ L, s ≤ w.wStart ∧ w.wStart ≤ w.wEnd ∧ w.wEnd ≤ e) ∧
        L.Pairwise (fun a b => a.wEnd < b.wStart) ∧
        (L.map fun w => total w.wStart w.wEnd).sum = total s e ∧
        (∀ w ∈ L, total w.wStart w.wEnd ≤ CEILING) ∧
        (∀ d : Int, s ≤ d → d ≤ e →
          (∀ w ∈ L, ¬ (w.wStart ≤ d ∧ d ≤ w.wEnd)) → total d d = 0) := by
  intro fuel
  induction fuel with
  | zero =>
    intro s e hse hlt
    exact absurd hlt (Nat.not_lt_zero _)
  | succ n ih =>
    intro s e hse hlt
    by_cases h0 : total s e = 0
    · refine ⟨[], ?_, ?_, ?_, ?_, ?_, ?_⟩
      · rw [runRecursive_succ, if_pos h0]
      · intro w hw
        exact absurd hw (List.not_mem_nil w)
      · exact List.Pairwise.nil
      · simpa using h0.symm
      · intro w hw
        exact absurd hw (List.not_mem_nil w)
      · intro d hsd hde _
        exact additive_zero_on_days total hadd (e - s).toNat s e d rfl hsd hde h0
    · by_cases hC : CEILING < total s e
      · have hne : s ≠ e := by
          intro heq
          rw [heq] at hC
          exact absurd (hday e) (by omega)
        have hlt2 : s < e := lt_of_le_of_ne hse hne
        have hb := midDate_bounds hlt2
        have hsm : splitMid s e = midDate s e := splitMid_of_lt hlt2
        obtain ⟨L1, hL1, hc1, hp1, hs1, hb1, hz1⟩ :=
          ih s (midDate s e) hb.1 (by omega)
        obtain ⟨L2, hL2, hc2, hp2, hs2, hb2, hz2⟩ :=
          ih (midDate s e + 1) e (by omega) (by omega)
        refine ⟨L1 ++ L2, ?_, ?_, ?_, ?_, ?_, ?_⟩
        · rw [runRecursive_succ, if_neg h0, if_pos hC, hsm, hL1, hL2]
        · intro w hw
          rcases List.mem_append.mp hw with h1 | h2
          · have := hc1 w h1
            refine ⟨this.1, this.2.1, by omega⟩
          · have := hc2 w h2
            refine ⟨by omega, this.2.1, this.2.2⟩
        · refine List.pairwise_append.mpr ⟨hp1, hp2, ?_⟩
          intro a ha b hb2'
          have h1 := hc1 a ha
          have h2 := hc2 b hb2'
          omega
        · rw [List.map_append, List.sum_append, hs1, hs2]
          exact (hadd s (midDate s e) e hb.1 hb.2).symm
        · intro w hw
          rcases List.mem_append.mp hw with h1 | h2
          · exact hb1 w h1
          · exact hb2 w h2
        · intro d hsd hde hout
          by_cases hdm : d ≤ midDate s e
          · exact hz1 d hsd hdm (fun w hw => hout w (List.mem_append_left _ hw))
          · exact hz2 d (by omega) hde (fun w hw => hout w (List.mem_append_right _ hw))
      · refine ⟨[⟨s, e⟩], ?_, ?_, ?_, ?_, ?_, ?_⟩
        · rw [runRecursive_succ, if_neg h0, if_neg hC]
        · intro w hw
          rw [List.mem_singleton] at hw
          rw [hw]
          exact ⟨le_refl s, hse, le_refl e⟩
        · exact List.pairwise_singleton _ _
        · simp
        · intro w hw
          rw [List.mem_singleton] at hw
          rw [hw]
          show total s e ≤ CEILING
          omega
        · intro d hsd hde hout
          exact absurd ⟨hsd, hde⟩ (hout ⟨s, e⟩ (List.mem_singleton.mpr rfl))

/-- Leaves of any terminated run from a valid root are valid windows
(`wStart ≤ wEnd`); no additivity is needed. -/
theorem runRecursive_leaves_valid (total : Int → Int → Nat) :
    ∀ fuel : Nat, ∀ s e : Int, ∀ L, s ≤ e →
      runRecursive total fuel s e = some L → ∀ w ∈ L, w.wStart ≤ w.wEnd := by
  intro fuel
  induction fuel with
  | zero =>
    intro s e L _ h
    exact absurd h (by simp [runRecursive])
  | succ n ih =>
    intro s e L hse h
    rw [runRecursive_succ] at h
    by_cases h0 : total s e = 0
    · rw [if_pos h0] at h
      cases h
      intro w hw
      exact absurd hw (List.not_mem_nil w)
    · rw [if_neg h0] at h
      by_cases hC : CEILING < total s e
      · rw [if_pos hC] at h
        by_cases heq : s = e
        · subst heq
          have hmid : splitMid s s = s := by simp [splitMid, midDate]
          rw [hmid, overCeiling_diag_none total s hC n] at h
          exact absurd h (by simp)
        · have hlt2 : s < e := lt_of_le_of_ne hse heq
          have hb := midDate_bounds hlt2
          have hsm : splitMid s e = midDate s e := splitMid_of_lt hlt2
          rw [hsm] at h
          cases hL1 : runRecursive total n s (midDate s e) with
          | none => rw [hL1] at h; exact absurd h (by simp)
          | some L1 =>
            rw [hL1] at h
            cases hL2 : runRecursive total n (midDate s e + 1) e with
            | none => rw [hL2] at h; exact absurd h (by simp)
            | some L2 =>
              rw [hL2] at h
              cases h
              intro w hw
              rcases List.mem_append.mp hw with h1 | h2
              · exact ih s (midDate s e) L1 hb.1 hL1 w h1
              · exact ih (midDate s e + 1) e L2 (by omega) hL2 w h2
      · rw [if_neg hC] at h
        cases h
        intro w hw
        rw [List.mem_singleton] at hw
        rw [hw]
        exact hse

/-- Every reached recursive call from a valid root is itself valid: the only
candidate for an inverted call is the right sibling `(s+1, s)` after a
single-day over-ceiling split, and its left sibling `(s, s)` never
terminates, so strict evaluation never issues the inverted call. -/
theorem reaches_valid (total : Int → Int → Nat) :
    ∀ s e s' e' : Int, Reaches total s e s' e' → s ≤ e → s' ≤ e' := by
  intro s e s' e' hr
  induction hr with
  | here s e => exact fun h => h
  | left hC _ ih =>
    intro hse
    apply ih
    rename_i s e s' e' _
    by_cases heq : s = e
    · subst heq
      have : splitMid s s = s := by simp [splitMid, midDate]
      omega
    · have hlt2 : s < e := lt_of_le_of_ne hse heq
      have hb := midDate_bounds hlt2
      rw [splitMid_of_lt hlt2]
      exact hb.1
  | right hC hterm _ ih =>
    intro hse
    apply ih
    rename_i s e s' e' _
    by_cases heq : s = e
    · subst heq
      have hmid : splitMid s s = s := by simp [splitMid, midDate]
      obtain ⟨fuel, L, hL⟩ := hterm
      rw [hmid, overCeiling_diag_none total s hC fuel] at hL
      exact absurd hL (by simp)
    · have hlt2 : s < e := lt_of_le_of_ne hse heq
      have hb := midDate_bounds hlt2
      rw [splitMid_of_lt hlt2]
      omega

/-- Splitting a day-mass sum at an interior point. -/
theorem sumMass_append (mass : Int → Nat) :
    ∀ a b : Nat, ∀ s : Int,
      sumMass mass s (a + b) = sumMass mass s a + sumMass mass (s + (a : Int)) b := by
  intro a
  induction a with
  | zero =>
    intro b s
    simp [sumMass]
  | succ n ih =>
    intro b s
    have h1 : n + 1 + b = (n + b) + 1 := by omega
    rw [h1]
    show mass s + sumMass mass (s + 1) (n + b) = _
    rw [ih b (s + 1)]
    have h2 : s + 1 + (n : Int) = s + ((n : Nat) + 1 : Nat) := by push_cast; ring
    rw [h2]
    show _ = mass s + sumMass mass (s + 1) n + sumMass mass (s + ((n + 1 : Nat) : Int)) b
    omega

/-- A day-mass interval total is additive. -/
theorem intervalTotal_additive (mass : Int → Nat) :
    AdditiveTotal (intervalTotal mass) := by
  intro s m e hsm hme
  unfold intervalTotal
  rw [if_pos (by omega : s ≤ e), if_pos hsm, if_pos (by omega : m + 1 ≤ e)]
  have h1 : (e - s).toNat + 1 = ((m - s).toNat + 1) + ((e - (m + 1)).toNat + 1) := by
    omega
  rw [h1, sumMass_append]
  have h2 : s + (((m - s).toNat + 1 : Nat) : Int) = m + 1 := by
    push_cast
    omega
  rw [h2]

/-- A single-day interval total is the day's mass. -/
theorem intervalTotal_diag (mass : Int → Nat) (d : Int) :
    intervalTotal mass d d = mass d := by
  simp [intervalTotal, sumMass]

/-- Every single-day total of the counterexample oracle is within the ceiling. -/
theorem exTotal_day_le (d : Int) : exTotal d d ≤ CEILING := by
  show intervalTotal exMass d d ≤ CEILING
  rw [intervalTotal_diag]
  unfold exMass CEILING
  split
  · omega
  · split
    · omega
    · omega

/-! ### Claim C1 (code bug) -/

/-- Claim C1 is violated by the code: on a single-day window whose total
exceeds the ceiling (here the constant oracle 5000 on the window
`[0, 0]`), `run_recursive` does not accept the window as a leaf — the
`if mid == end_date: mid = start_date` guard leaves the left recursive
call identical to the parent call, so the recursion never terminates
(`none` for every fuel; in Python, unbounded self-recursion ending in
`RecursionError`). -/
theorem singleDay_overCeiling_diverges :
    ∀ fuel, runRecursive (fun _ _ => 5000) fuel 0 0 = none :=
  fun fuel => overCeiling_diag_none (fun _ _ => 5000) 0 (by decide) fuel

/-! ### Claim C2 (corrected) -/

/-- Claim C2 as stated is false on the code: `exTotal` is additive, every
single-day total is within the ceiling, and the root window `[0, 3]` is
valid, yet the produced leaves `[2,2], [3,3]` do not cover day 0 of the
root — the zero-total sub-window `[0, 1]` is dropped, so the union of the
leaves does not cover the root window exactly. -/
theorem plan_coverage_counterexample :
    AdditiveTotal exTotal ∧ (0 : Int) ≤ 3 ∧
    runRecursive exTotal 4 0 3 = some [⟨2, 2⟩, ⟨3, 3⟩] ∧
    (∀ w ∈ ([⟨2, 2⟩, ⟨3, 3⟩] : List TimeWindow),
      ¬ (w.wStart ≤ 0 ∧ (0 : Int) ≤ w.wEnd)) :=
  ⟨intervalTotal_additive exMass, by decide, by decide, by decide⟩

/-- Claim C2 (amended): for an additive total-count oracle all of whose
single-day totals are within the 4800 ceiling, `run_recursive` on a valid
root window terminates and yields leaf windows that are contained in the
root, pairwise disjoint (sorted with gaps only at zero-total days), whose
per-leaf totals sum to the root total, every leaf total within the
ceiling; every day of the root left uncovered has zero total. -/
theorem plan_partition_correct (total : Int → Int → Nat)
    (hadd : AdditiveTotal total) (hday : ∀ d : Int, total d d ≤ CEILING)
    (s e : Int) (hse : s ≤ e) :
    ∃ L, runRecursive total ((e - s).toNat + 1) s e = some L ∧
      (∀ w ∈ L, s ≤ w.wStart ∧ w.wStart ≤ w.wEnd ∧ w.wEnd ≤ e) ∧
      L.Pairwise (fun a b => a.wEnd < b.wStart) ∧
      (L.map fun w => total w.wStart w.wEnd).sum = total s e ∧
      (∀ w ∈ L, total w.wStart w.wEnd ≤ CEILING) ∧
      (∀ d : Int, s ≤ d → d ≤ e →
        (∀ w ∈ L, ¬ (w.wStart ≤ d ∧ d ≤ w.wEnd)) → total d d = 0) :=
  runRecursive_correct total hadd hday ((e - s).toNat + 1) s e hse
    (Nat.lt_succ_self _)

/-- Witness for the amended C2 at the concrete additive oracle `exTotal` on
the root `[0, 3]`. -/
theorem plan_partition_correct_witness :
    AdditiveTotal exTotal ∧ (∀ d : Int, exTotal d d ≤ CEILING) ∧ (0 : Int) ≤ 3 ∧
    (∃ L, runRecursive exTotal (((3 : Int) - 0).toNat + 1) 0 3 = some L ∧
      (∀ w ∈ L, 0 ≤ w.wStart ∧ w.wStart ≤ w.wEnd ∧ w.wEnd ≤ 3) ∧
      L.Pairwise (fun a b => a.wEnd < b.wStart) ∧
      (L.map fun w => exTotal w.wStart w.wEnd).sum = exTotal 0 3 ∧
      (∀ w ∈ L, exTotal w.wStart w.wEnd ≤ CEILING) ∧
      (∀ d : Int, 0 ≤ d → d ≤ 3 →
        (∀ w ∈ L, ¬ (w.wStart ≤ d ∧ d ≤ w.wEnd)) → exTotal d d = 0)) :=
  ⟨intervalTotal_additive exMass, exTotal_day_le, by decide,
    plan_partition_correct exTotal (intervalTotal_additive exMass)
      exTotal_day_le 0 3 (by decide)⟩

/-! ### Claim C3 (confirmed) -/

/-- Claim C3: starting from a root window with `start ≤ end`, every recursive
call `run_recursive` actually issues satisfies `start ≤ end` (so every
window handed to `check_total_count` is valid), and every leaf window of a
terminated run (every window handed to `search_all`) satisfies
`start ≤ end`.  The only candidate violation — the right sibling
`(s+1, s)` of a single-day over-ceiling split — is never issued, because
Python evaluates the left sibling first and that call never returns. -/
theorem planner_windows_valid (total : Int → Int → Nat) (s e : Int) (hse : s ≤ e) :
    (∀ s' e' : Int, Reaches total s e s' e' → s' ≤ e') ∧
    (∀ fuel L, runRecursive total fuel s e = some L → ∀ w ∈ L, w.wStart ≤ w.wEnd) :=
  ⟨fun s' e' hr => reaches_valid total s e s' e' hr hse,
    fun fuel L h => runRecursive_leaves_valid total fuel s e L hse h⟩

/-- Witness for C3 at the constant oracle 5000 on the root `[0, 1]`. -/
theorem planner_windows_valid_witness :
    (0 : Int) ≤ 1 ∧
    ((∀ s' e' : Int, Reaches (fun _ _ => 5000) 0 1 s' e' → s' ≤ e') ∧
     (∀ fuel L, runRecursive (fun _ _ => 5000) fuel 0 1 = some L →
        ∀ w ∈ L, w.wStart ≤ w.wEnd)) :=
  ⟨by decide, planner_windows_valid (fun _ _ => 5000) 0 1 (by decide)⟩

/-! ### Download engines: helper lemmas -/

/-- Per-attempt state facts for `SSEInquiriesScraper._download_file`: a failed
attempt leaves the path empty or untouched; a successful attempt leaves a
body of at least 1000 bytes. -/
theorem sseAttempt_spec (fs : Option (List Nat)) (r : NetResult) :
    ((sseAttempt fs r).2 = false →
      (sseAttempt fs r).1 = none ∨ (sseAttempt fs r).1 = fs) ∧
    ((sseAttempt fs r).2 = true →
      ∃ c, (sseAttempt fs r).1 = some c ∧ 1000 ≤ c.length) := by
  cases r with
  | raise => simp [sseAttempt]
  | resp ct content =>
    by_cases h1 : containsTextHtml ct ∧ content.length < 10000
    · simp [sseAttempt, h1]
    · by_cases h2 : content.length < 1000
      · simp [sseAttempt, h1, h2]
      · refine ⟨fun h => ?_, fun _ => ⟨content, ?_, by omega⟩⟩
        · exact absurd h (by simp [sseAttempt, h1, h2])
        · simp [sseAttempt, h1, h2]

/-- Loop-level state facts for `SSEInquiriesScraper._download_file`: on
failure the path is empty or holds the initial content, on success it
holds a body of at least 1000 bytes, and the loop never reports a skip. -/
theorem sseLoop_spec (net : List NetResult) :
    ∀ fs : Option (List Nat),
      ((sseLoop fs net).2.1 = DlOutcome.failed →
        (sseLoop fs net).1 = none ∨ (sseLoop fs net).1 = fs) ∧
      ((sseLoop fs net).2.1 = DlOutcome.succeeded →
        ∃ c, (sseLoop fs net).1 = some c ∧ 1000 ≤ c.length) ∧
      (sseLoop fs net).2.1 ≠ DlOutcome.skipped := by
  induction net with
  | nil =>
    intro fs
    refine ⟨fun _ => Or.inr rfl, fun h => ?_, by simp [sseLoop]⟩
    exact absurd h (by simp [sseLoop])
  | cons r rest ih =>
    intro fs
    have hA := sseAttempt_spec fs r
    simp only [sseLoop]
    cases hEq : sseAttempt fs r with
    | mk fs2 b =>
      rw [hEq] at hA
      cases b with
      | true =>
        refine ⟨fun h => absurd h (by simp), fun _ => hA.2 rfl, by simp⟩
      | false =>
        cases rest with
        | nil =>
          refine ⟨fun _ => hA.1 rfl, fun h => absurd h (by simp), by simp⟩
        | cons r2 rest2 =>
          have hIH := ih fs2
          refine ⟨fun h => ?_, fun h => hIH.2.1 h, hIH.2.2⟩
          rcases hIH.1 h with h1 | h2
          · exact Or.inl h1
          · rw [h2]
            exact hA.1 rfl

/-- Per-attempt state facts for `CninfoSearchDownloader._download_file`. -/
theorem cniAttempt_spec (fs : Option (List Nat)) (r : CniNet) :
    ((cniAttempt fs r).2 = some true →
      ∃ c, (cniAttempt fs r).1 = some c ∧ 1024 < c.length) ∧
    ((cniAttempt fs r).2 = some false → (cniAttempt fs r).1 = fs) ∧
    ((cniAttempt fs r).2 = none →
      (cniAttempt fs r).1 = none ∨ (cniAttempt fs r).1 = fs) := by
  cases r with
  | raise => simp [cniAttempt]
  | resp status ct content =>
    by_cases h1 : status = 200
    · by_cases h2 : cniLooksHtml ct content
      · simp [cniAttempt, h1, h2]
      · by_cases h3 : 1024 < content.length
        · refine ⟨fun _ => ⟨content, ?_, h3⟩, fun h => ?_, fun h => ?_⟩
          · simp [cniAttempt, h1, h2, h3]
          · exact absurd h (by simp [cniAttempt, h1, h2, h3])
          · exact absurd h (by simp [cniAttempt, h1, h2, h3])
        · simp [cniAttempt, h1, h2, h3]
    · by_cases h4 : status = 404 ∨ status = 410
      · simp [cniAttempt, h1, h4]
      · simp [cniAttempt, h1, h4]

/-- Loop-level state facts for `CninfoSearchDownloader._download_file`. -/
theorem cniLoop_spec (net : List CniNet) :
    ∀ fs : Option (List Nat),
      ((cniLoop fs net).2.1 = false →
        (cniLoop fs net).1 = none ∨ (cniLoop fs net).1 = fs) ∧
      ((cniLoop fs net).2.1 = true →
        ∃ c, (cniLoop fs net).1 = some c ∧ 1024 < c.length) := by
  induction net with
  | nil =>
    intro fs
    refine ⟨fun _ => Or.inr rfl, fun h => ?_⟩
    exact absurd h (by simp [cniLoop])
  | cons r rest ih =>
    intro fs
    have hA := cniAttempt_spec fs r
    simp only [cniLoop]
    cases hEq : cniAttempt fs r with
    | mk fs2 ob =>
      rw [hEq] at hA
      cases ob with
      | none =>
        have hIH := ih fs2
        refine ⟨fun h => ?_, fun h => hIH.2 h⟩
        rcases hIH.1 h with h1 | h2
        · exact Or.inl h1
        · rw [h2]
          exact hA.2.2 rfl
      | some b =>
        cases b with
        | true => exact ⟨fun h => absurd h (by simp), fun _ => hA.1 rfl⟩
        | false => exact ⟨fun _ => Or.inr (hA.2.1 rfl), fun h => absurd h (by simp)⟩

/-! ### Claim C4 (confirmed) -/

/-- Claim C4: after a single `_download_file` invocation terminates, the
target path never holds a partial/invalid body — for the SSE inquiries
variant, terminal failure implies the path is empty (a written body that
failed the post-write size re-validation was deleted, and a pre-existing
under-threshold file was deleted on entry), success/skip implies a body
at/above the 1000-byte threshold; for the cninfo variant, terminal
failure leaves the path empty or exactly as it was before the call, and
success implies a body above the 1024-byte threshold. -/
theorem download_cleanup_spec (fs : Option (List Nat)) (net : List NetResult)
    (fs2 : Option (List Nat)) (cnet : List CniNet) :
    ((sseDownloadFile fs net).2.1 = DlOutcome.failed →
      (sseDownloadFile fs net).1 = none) ∧
    ((sseDownloadFile fs net).2.1 = DlOutcome.succeeded →
      ∃ c, (sseDownloadFile fs net).1 = some c ∧ 1000 ≤ c.length) ∧
    ((sseDownloadFile fs net).2.1 = DlOutcome.skipped →
      (sseDownloadFile fs net).1 = fs ∧ ∃ c, fs = some c ∧ 1000 < c.length) ∧
    ((cniDownloadFile fs2 cnet).2.1 = false →
      (cniDownloadFile fs2 cnet).1 = none ∨ (cniDownloadFile fs2 cnet).1 = fs2) ∧
    ((cniDownloadFile fs2 cnet).2.1 = true →
      ∃ c, (cniDownloadFile fs2 cnet).1 = some c ∧ 1024 < c.length) := by
  have hcni := cniLoop_spec cnet fs2
  have hsse : sseDownloadFile fs net = sseLoop none net ∨
      (∃ c, fs = some c ∧ 1000 < c.length ∧
        sseDownloadFile fs net = (some c, DlOutcome.skipped, 0)) := by
    cases fs with
    | none => exact Or.inl rfl
    | some c =>
      by_cases hc : 1000 < c.length
      · exact Or.inr ⟨c, rfl, hc, by simp [sseDownloadFile, hc]⟩
      · exact Or.inl (by simp [sseDownloadFile, hc])
  rcases hsse with hL | ⟨c, hfs, hc, hSkip⟩
  · rw [hL]
    have hsl := sseLoop_spec net none
    refine ⟨?_, hsl.2.1, ?_, hcni.1, hcni.2⟩
    · intro h
      rcases hsl.1 h with h1 | h1 <;> exact h1
    · intro h
      exact absurd h hsl.2.2
  · rw [hSkip]
    refine ⟨?_, ?_, ?_, hcni.1, hcni.2⟩
    · intro h
      exact absurd h (by simp)
    · intro h
      exact absurd h (by simp)
    · intro _
      exact ⟨hfs.symm, c, hfs, hc⟩

/-- Witness for C4: a pre-existing 3-byte (under-threshold) file plus three
failed attempts ends in failure with the path left empty; a definitive
404 on the cninfo variant fails leaving the (initially empty) path
untouched. -/
theorem download_cleanup_spec_witness :
    (sseDownloadFile (some [0, 0, 0])
        [NetResult.raise, NetResult.raise, NetResult.raise]).1 = none ∧
    ((cniDownloadFile none [CniNet.resp 404 "" []]).1 = none ∨
      (cniDownloadFile none [CniNet.resp 404 "" []]).1 = none) := by
  refine ⟨?_, ?_⟩
  · exact (download_cleanup_spec (some [0, 0, 0])
      [NetResult.raise, NetResult.raise, NetResult.raise] none []).1 (by decide)
  · exact (download_cleanup_spec (some [0, 0, 0]) [] none
      [CniNet.resp 404 "" []]).2.2.2.1 (by decide)

/-! ### Claim C5 (confirmed) -/

/-- When every record's artifact is already valid, the pre-scan of
`download_from_index` queues no download task and reports every record as
a skip. -/
theorem cniScan_all_valid (lf : CniRecord → String) (filesDir : String)
    (fs : String → Option (List Nat)) :
    ∀ records : List CniRecord, ∀ seen : List String,
      (∀ r ∈ records, validSize 1024 fs (filesDir ++ "/" ++ lf r) = true) →
      (cniScan lf filesDir fs records seen).2 = [] ∧
      ∀ row ∈ (cniScan lf filesDir fs records seen).1, row.status = "skip" := by
  intro records
  induction records with
  | nil =>
    intro seen _
    exact ⟨rfl, by simp [cniScan]⟩
  | cons r rest ih =>
    intro seen hall
    have hr := hall r (List.mem_cons_self r rest)
    have hrest : ∀ x ∈ rest, validSize 1024 fs (filesDir ++ "/" ++ lf x) = true :=
      fun x hx => hall x (List.mem_cons_of_mem r hx)
    simp only [cniScan]
    by_cases hdup : cniKey r ≠ "" ∧ cniKey r ∈ seen
    · rw [if_pos hdup]
      have hIH := ih seen hrest
      refine ⟨hIH.1, ?_⟩
      intro row hrow
      rcases List.mem_cons.mp hrow with h1 | h2
      · rw [h1]
        rfl
      · exact hIH.2 row h2
    · rw [if_neg hdup]
      by_cases hurl : cniUrl r = ""
      · rw [if_pos hurl]
        have hIH := ih (if cniKey r ≠ "" then cniKey r :: seen else seen) hrest
        refine ⟨hIH.1, ?_⟩
        intro row hrow
        rcases List.mem_cons.mp hrow with h1 | h2
        · rw [h1]
          rfl
        · exact hIH.2 row h2
      · rw [if_neg hurl, if_pos hr]
        have hIH := ih (if cniKey r ≠ "" then cniKey r :: seen else seen) hrest
        refine ⟨hIH.1, ?_⟩
        intro row hrow
        rcases List.mem_cons.mp hrow with h1 | h2
        · rw [h1]
          rfl
        · exact hIH.2 row h2

/-- Claim C5: a record whose target path already holds a body above the
minimum-valid-size threshold is skipped without consuming any network
attempt and without changing the file — for the SSE inquiries
`_download_file` (threshold 1000) the call returns the skip result with
the path untouched and zero attempts consumed; consequently, running
`download_from_index` (threshold 1024) over a record set whose artifacts
are all valid reports every row as `skip`, leaves the filesystem map
untouched, and consumes zero network attempts. -/
theorem existence_short_circuit (c : List Nat) (net : List NetResult)
    (lf : CniRecord → String) (filesDir : String)
    (fs : String → Option (List Nat)) (records : List CniRecord)
    (cnet : CniRecord → List CniNet)
    (hc : 1000 < c.length)
    (hall : ∀ r ∈ records, validSize 1024 fs (filesDir ++ "/" ++ lf r) = true) :
    sseDownloadFile (some c) net = (some c, DlOutcome.skipped, 0) ∧
    (∀ row ∈ (downloadFromIndex lf filesDir fs records cnet).1,
      row.status = "skip") ∧
    (downloadFromIndex lf filesDir fs records cnet).2.1 = fs ∧
    (downloadFromIndex lf filesDir fs records cnet).2.2 = 0 := by
  have hscan := cniScan_all_valid lf filesDir fs records [] hall
  have hdfi : downloadFromIndex lf filesDir fs records cnet =
      ((cniScan lf filesDir fs records []).1 ++ [], fs, 0) := by
    simp only [downloadFromIndex]
    rw [hscan.1]
    rfl
  refine ⟨by simp [sseDownloadFile, hc], ?_, ?_, ?_⟩
  · rw [hdfi]
    intro row hrow
    rw [List.append_nil] at hrow
    exact hscan.2 row hrow
  · rw [hdfi]
  · rw [hdfi]

/-- Witness for C5: a concrete valid artifact and a one-record index whose
artifact is already on disk. -/
theorem existence_short_circuit_witness :
    1000 < (List.replicate 1001 0).length ∧
    (∀ r ∈ [wRec], validSize 1024 wFs ("files" ++ "/" ++ wLf r) = true) ∧
    (sseDownloadFile (some (List.replicate 1001 0)) [] =
      (some (List.replicate 1001 0), DlOutcome.skipped, 0) ∧
    (∀ row ∈ (downloadFromIndex wLf "files" wFs [wRec] (fun _ => [])).1,
      row.status = "skip") ∧
    (downloadFromIndex wLf "files" wFs [wRec] (fun _ => [])).2.1 = wFs ∧
    (downloadFromIndex wLf "files" wFs [wRec] (fun _ => [])).2.2 = 0) := by
  have h1 : 1000 < (List.replicate 1001 0).length := by
    rw [List.length_replicate]
    omega
  have h2 : ∀ r ∈ [wRec], validSize 1024 wFs ("files" ++ "/" ++ wLf r) = true := by
    intro r _
    have hp : ("files" ++ "/" ++ wLf r : String) = "files/a.pdf" := rfl
    rw [hp]
    show (match wFs "files/a.pdf" with
      | some c => decide (1024 < c.length)
      | none => false) = true
    have hw : wFs "files/a.pdf" = some (List.replicate 1025 0) := rfl
    rw [hw]
    show decide (1024 < (List.replicate 1025 0).length) = true
    rw [List.length_replicate]
    rfl
  exact ⟨h1, h2, existence_short_circuit (List.replicate 1001 0) []
    wLf "files" wFs [wRec] (fun _ => []) h1 h2⟩

/-! ### Claim C6 (corrected) -/

/-- Claim C6 as stated is false on the code: for the single record with an
empty URL and no artifact on disk, the claim predicts one gap
(N = 1 records, K = 0 valid) and a failure log overwritten with that gap,
but `verify_and_retry` skips URL-less records entirely — it counts 0 valid
and 0 gaps, and deletes the failure log. -/
theorem verify_gaps_counterexample :
    (verifyClassify (fun _ => none) "files" [⟨"", "a.pdf"⟩]).1 = 0 ∧
    (verifyClassify (fun _ => none) "files" [⟨"", "a.pdf"⟩]).2.length = 0 ∧
    verifyLogAfter (fun _ => none) "files" [⟨"", "a.pdf"⟩] (some ["old"]) = none :=
  ⟨rfl, rfl, rfl⟩

/-- Claim C6 (amended to records with a nonempty URL): `verify_and_retry`
classifies as gaps exactly the records with a nonempty URL whose artifact
is absent or at-or-below the 1000-byte threshold; its valid count is the
number of records with a nonempty URL and a valid artifact; gaps + valid
partition the records with a URL (so with N such records and K valid
there are exactly N − K gaps); the failure log is fully overwritten with
exactly the gap lines whatever it held before, and with zero gaps the
log file is deleted (the clean state is the absence of the file). -/
theorem verify_gaps_spec (fs : String → Option (List Nat)) (filesDir : String)
    (records : List InqRecord) (prevLog : Option (List String)) :
    (verifyClassify fs filesDir records).2
      = records.filter (fun r => !(r.url == "") && !(inqValid fs filesDir r)) ∧
    (verifyClassify fs filesDir records).1
      = (records.filter (fun r => !(r.url == "") && inqValid fs filesDir r)).length ∧
    (verifyClassify fs filesDir records).2.length + (verifyClassify fs filesDir records).1
      = (records.filter (fun r => !(r.url == ""))).length ∧
    verifyLogAfter fs filesDir records prevLog
      = (if (verifyClassify fs filesDir records).2.isEmpty then none
         else some (((verifyClassify fs filesDir records).2).map gapLine)) := by
  refine ⟨?_, ?_, ?_, rfl⟩
  · induction records with
    | nil => rfl
    | cons r rest ih =>
      simp only [verifyClassify, List.filter_cons]
      by_cases hurl : r.url = ""
      · simp [hurl, ih]
      · by_cases hval : inqValid fs filesDir r
        · simp [hurl, hval, ih]
        · simp [hurl, hval, ih]
  · induction records with
    | nil => rfl
    | cons r rest ih =>
      simp only [verifyClassify, List.filter_cons]
      by_cases hurl : r.url = ""
      · simp [hurl, ih]
      · by_cases hval : inqValid fs filesDir r
        · simp [hurl, hval, ih]
        · simp [hurl, hval, ih]
  · induction records with
    | nil => rfl
    | cons r rest ih =>
      simp only [verifyClassify, List.filter_cons]
      by_cases hurl : r.url = ""
      · simpa [hurl] using ih
      · by_cases hval : inqValid fs filesDir r
        · simp [hurl, hval]
          omega
        · simp [hurl, hval]
          omega

/-- Witness for the amended C6 at a one-record set with a URL and a missing
artifact. -/
theorem verify_gaps_spec_witness :
    (verifyClassify wVfs "files" wVrecs).2
      = wVrecs.filter (fun r => !(r.url == "") && !(inqValid wVfs "files" r)) ∧
    (verifyClassify wVfs "files" wVrecs).1
      = (wVrecs.filter (fun r => !(r.url == "") && inqValid wVfs "files" r)).length ∧
    (verifyClassify wVfs "files" wVrecs).2.length + (verifyClassify wVfs "files" wVrecs).1
      = (wVrecs.filter (fun r => !(r.url == ""))).length ∧
    verifyLogAfter wVfs "files" wVrecs none
      = (if (verifyClassify wVfs "files" wVrecs).2.isEmpty then none
         else some (((verifyClassify wVfs "files" wVrecs).2).map gapLine)) :=
  verify_gaps_spec wVfs "files" wVrecs none

/-! ### Claim C7 (corrected) -/

/-- Claim C7 as stated is false for `SSESearchCrawler.search_all` (one of the
two engines it covers): fed an unparseable body on the first page followed
by a perfectly good page holding one record, the loop stops at once and
returns the empty accumulator — the transient failure is not retried and
the following response is never consumed; and fed nine consecutive request
exceptions followed by a good page, it keeps retrying past any
5-consecutive-failure cap and returns the record. -/
theorem search_retry_counterexample :
    sseSearchLoop [SseResp.badBody, SseResp.page [some 1] 1] 0 ([] : List Nat)
      = some [] ∧
    sseSearchLoop (List.replicate 9 SseResp.exn ++ [SseResp.page [some 1] 1]) 0
      ([] : List Nat) = some [1] := by
  constructor
  · rfl
  · rfl

/-- Claim C7 (amended to the inquiries engine `SSEInquiriesScraper.search_all`,
the one that implements the counter): while draining a window, a run of
transient page failures (request exceptions or unparseable bodies) below
the cap is retried in place — the page number is unchanged and the
consecutive-failure counter accumulates; once 5 consecutive failures are
reached the drain stops early returning exactly the records accumulated so
far (not discarding them); and a successfully parsed non-empty page resets
the counter to 0 while appending its records. -/
theorem inq_retry_spec (α : Type) (tp : Nat) (mp : Option Nat) :
    (∀ (fails env : List (InqResp α)) (page errors : Nat) (acc : List α),
        (∀ r ∈ fails, isTransient r = true) → fails.length + errors = 5 →
        errors ≤ 4 →
        inqLoop tp mp (fails ++ env) page errors acc = some acc) ∧
    (∀ (fails env : List (InqResp α)) (page errors : Nat) (acc : List α),
        (∀ r ∈ fails, isTransient r = true) → fails.length + errors < 5 →
        inqLoop tp mp (fails ++ env) page errors acc
          = inqLoop tp mp env page (errors + fails.length) acc) ∧
    (∀ (items : List (Option α)) (env : List (InqResp α)) (page errors : Nat)
        (acc : List α),
        items ≠ [] → page < tp → mpStop mp page = false →
        inqLoop tp mp (InqResp.page items :: env) page errors acc
          = inqLoop tp mp env (page + 1) 0 (acc ++ items.filterMap id)) := by
  refine ⟨?_, ?_, ?_⟩
  · intro fails
    induction fails with
    | nil =>
      intro env page errors acc _ hlen herr
      simp only [List.length_nil] at hlen
      omega
    | cons f fails2 ih =>
      intro env page errors acc htr hlen herr
      have hf := htr f (List.mem_cons_self f fails2)
      have hlen2 : fails2.length + (errors + 1) = 5 := by
        simp only [List.length_cons] at hlen
        omega
      have htr2 : ∀ r ∈ fails2, isTransient r = true :=
        fun r hr => htr r (List.mem_cons_of_mem f hr)
      cases f with
      | page items => exact absurd hf (by simp [isTransient])
      | exn =>
        show inqLoop tp mp (InqResp.exn :: (fails2 ++ env)) page errors acc = some acc
        simp only [inqLoop]
        by_cases h5 : 5 ≤ errors + 1
        · rw [if_pos h5]
        · rw [if_neg h5]
          exact ih env page (errors + 1) acc htr2 hlen2 (by omega)
      | badBody =>
        show inqLoop tp mp (InqResp.badBody :: (fails2 ++ env)) page errors acc = some acc
        simp only [inqLoop]
        by_cases h5 : 5 ≤ errors + 1
        · rw [if_pos h5]
        · rw [if_neg h5]
          exact ih env page (errors + 1) acc htr2 hlen2 (by omega)
  · intro fails
    induction fails with
    | nil =>
      intro env page errors acc _ _
      simp
    | cons f fails2 ih =>
      intro env page errors acc htr hlen
      have hf := htr f (List.mem_cons_self f fails2)
      have hlen2 : fails2.length + (errors + 1) < 5 := by
        simp only [List.length_cons] at hlen
        omega
      have htr2 : ∀ r ∈ fails2, isTransient r = true :=
        fun r hr => htr r (List.mem_cons_of_mem f hr)
      have harith : errors + (f :: fails2).length = (errors + 1) + fails2.length := by
        simp only [List.length_cons]
        omega
      cases f with
      | page items => exact absurd hf (by simp [isTransient])
      | exn =>
        show inqLoop tp mp (InqResp.exn :: (fails2 ++ env)) page errors acc = _
        simp only [inqLoop]
        rw [if_neg (by omega : ¬ 5 ≤ errors + 1), ih env page (errors + 1) acc htr2 hlen2,
          harith]
      | badBody =>
        show inqLoop tp mp (InqResp.badBody :: (fails2 ++ env)) page errors acc = _
        simp only [inqLoop]
        rw [if_neg (by omega : ¬ 5 ≤ errors + 1), ih env page (errors + 1) acc htr2 hlen2,
          harith]
  · intro items env page errors acc hne hpage hmp
    have hie : items.isEmpty = false := by
      simpa using hne
    simp only [inqLoop, hie]
    rw [if_neg (by simp), if_neg (by omega : ¬ tp ≤ page), if_neg (by simp [hmp])]

/-- Witness for the amended C7: five consecutive unparseable bodies stop the
drain returning the single record accumulated so far. -/
theorem inq_retry_spec_witness :
    (∀ r ∈ List.replicate 5 (InqResp.badBody : InqResp Nat), isTransient r = true) ∧
    (List.replicate 5 (InqResp.badBody : InqResp Nat)).length + 0 = 5 ∧
    (0 : Nat) ≤ 4 ∧
    inqLoop 10 none (List.replicate 5 (InqResp.badBody : InqResp Nat) ++ []) 1 0 [7]
      = some [7] :=
  ⟨by decide, by decide, by decide,
    (inq_retry_spec Nat 10 none).1 (List.replicate 5 InqResp.badBody) [] 1 0 [7]
      (by decide) (by decide) (by decide)⟩

/-! ### Claim C8 (corrected) -/

/-- A needle whose first byte differs from `b` never occurs in a constant
`b`-byte body. -/
theorem bytesContains_cons_replicate (a : Nat) (t : List Nat) (b : Nat)
    (h : a ≠ b) : ∀ n, bytesContains (a :: t) (List.replicate n b) = false := by
  intro n
  induction n with
  | zero => rfl
  | succ m ih =>
    show bytesContains (a :: t) (b :: List.replicate m b) = false
    simp only [bytesContains, bytesLead]
    rw [ih]
    simp [h]

/-- `isWafBody` is false on a constant `0x01` body: no marker occurs and the
`<html` test fails. -/
theorem isWafBody_bigPlain : isWafBody bigPlain = false := by
  unfold isWafBody bigPlain
  rw [show wafMark1 = 118 :: [97, 114, 32, 97, 114, 103, 49, 61] from rfl,
    bytesContains_cons_replicate 118 _ 1 (by omega),
    show wafMark2 = 118 :: [97, 114, 32, 95, 48, 120] from rfl,
    bytesContains_cons_replicate 118 _ 1 (by omega),
    show htmlTag = 60 :: [104, 116, 109, 108] from rfl,
    bytesContains_cons_replicate 60 _ 1 (by omega)]
  rw [Bool.and_false]
  rfl

/-- Claim C8 as stated is false on the code: a challenge is detected on the
first body (a small `<html` page), the single re-fetch returns
`bigPlain` — a 1001-byte non-HTML body that the engine's own commit check
accepts as a valid artifact when no challenge precedes it (third
conjunct) — yet the post-challenge path rejects it (second conjunct),
because after recovery only a `%PDF`-magic body is accepted. -/
theorem pw_postchallenge_counterexample :
    isWafBody htmlTag = true ∧
    (pwDownloadFile ⟨htmlTag, bigPlain⟩ none).2.1 = false ∧
    (pwDownloadFile ⟨bigPlain, bigPlain⟩ none).2.1 = true := by
  have hwaf : isWafBody htmlTag = true := by decide
  refine ⟨hwaf, ?_, ?_⟩
  · simp only [pwDownloadFile]
    rw [if_pos hwaf, if_neg (by decide)]
  · have hcond : (bigPlain.take 4 == pdfMagic || decide (1000 < bigPlain.length))
        = true := by
      rw [show (bigPlain.take 4 == pdfMagic) = false from by decide]
      simp only [Bool.false_or, decide_eq_true_eq]
      rw [show bigPlain.length = 1001 from by
        unfold bigPlain; rw [List.length_replicate]]
      omega
    simp only [pwDownloadFile]
    rw [if_neg (by simp [isWafBody_bigPlain]), if_pos hcond]

/-- Claim C8 (amended): on a body classified as an anti-bot challenge page,
`_playwright_download_file` performs exactly one side-channel navigation
(`_solve_waf`) and exactly one re-issued fetch; the re-fetched body is
committed and the task succeeds only when it starts with the `%PDF`
magic — any other re-fetched body (even one large enough to pass the
ordinary commit check) terminates as a post-challenge failure leaving the
target path untouched.  Without a challenge, no navigation and no second
fetch happen. -/
theorem pw_challenge_recovery (env : PwFetches) (fs : Option (List Nat))
    (hwaf : isWafBody env.body1 = true) :
    (pwDownloadFile env fs).2.2.1 = 1 ∧
    (pwDownloadFile env fs).2.2.2 = 2 ∧
    (env.body2.take 4 = pdfMagic →
      (pwDownloadFile env fs).2.1 = true ∧
      (pwDownloadFile env fs).1 = some env.body2) ∧
    (env.body2.take 4 ≠ pdfMagic →
      (pwDownloadFile env fs).2.1 = false ∧
      (pwDownloadFile env fs).1 = fs) := by
  simp only [pwDownloadFile, hwaf, if_true]
  by_cases hpdf : env.body2.take 4 = pdfMagic
  · rw [if_pos (by simp [hpdf])]
    exact ⟨rfl, rfl, fun _ => ⟨rfl, rfl⟩, fun h => absurd hpdf h⟩
  · rw [if_neg (by simp [hpdf])]
    exact ⟨rfl, rfl, fun h => absurd h hpdf, fun _ => ⟨rfl, rfl⟩⟩

/-- Witness for the amended C8: a small `<html` challenge body followed by a
re-fetched PDF body. -/
theorem pw_challenge_recovery_witness :
    isWafBody (⟨htmlTag, pdfMagic ++ [0, 0, 0]⟩ : PwFetches).body1 = true ∧
    ((pwDownloadFile ⟨htmlTag, pdfMagic ++ [0, 0, 0]⟩ none).2.2.1 = 1 ∧
    (pwDownloadFile ⟨htmlTag, pdfMagic ++ [0, 0, 0]⟩ none).2.2.2 = 2 ∧
    ((pdfMagic ++ [0, 0, 0] : List Nat).take 4 = pdfMagic →
      (pwDownloadFile ⟨htmlTag, pdfMagic ++ [0, 0, 0]⟩ none).2.1 = true ∧
      (pwDownloadFile ⟨htmlTag, pdfMagic ++ [0, 0, 0]⟩ none).1
        = some (pdfMagic ++ [0, 0, 0])) ∧
    ((pdfMagic ++ [0, 0, 0] : List Nat).take 4 ≠ pdfMagic →
      (pwDownloadFile ⟨htmlTag, pdfMagic ++ [0, 0, 0]⟩ none).2.1 = false ∧
      (pwDownloadFile ⟨htmlTag, pdfMagic ++ [0, 0, 0]⟩ none).1 = none)) :=
  ⟨by decide, pw_challenge_recovery ⟨htmlTag, pdfMagic ++ [0, 0, 0]⟩ none (by decide)⟩

/-! ### Claim C9 (confirmed): helper lemmas -/

/-- Unfolding: the scan skips a file below the size floor. -/
theorem dedupScan_cons_small (md5 : List Nat → String) (n : String)
    (ct : List Nat) (rest : List (String × List Nat))
    (seen : List (String × String)) (h : ct.length < 100) :
    dedupScan md5 ((n, ct) :: rest) seen = dedupScan md5 rest seen := by
  simp [dedupScan, h]

/-- Unfolding: the scan reports a file whose digest was already seen. -/
theorem dedupScan_cons_found (md5 : List Nat → String) (n : String)
    (ct : List Nat) (rest : List (String × List Nat))
    (seen : List (String × String)) (orig : String) (h : ¬ ct.length < 100)
    (hl : lookupHash seen (md5 ct) = some orig) :
    dedupScan md5 ((n, ct) :: rest) seen
      = (n, orig) :: dedupScan md5 rest seen := by
  simp [dedupScan, h, hl]

/-- Unfolding: the scan records the digest of a first-seen file. -/
theorem dedupScan_cons_new (md5 : List Nat → String) (n : String)
    (ct : List Nat) (rest : List (String × List Nat))
    (seen : List (String × String)) (h : ¬ ct.length < 100)
    (hl : lookupHash seen (md5 ct) = none) :
    dedupScan md5 ((n, ct) :: rest) seen
      = dedupScan md5 rest ((md5 ct, n) :: seen) := by
  simp [dedupScan, h, hl]

/-- Unfolding: `seenAfter` skips a file below the size floor. -/
theorem seenAfter_cons_small (md5 : List Nat → String) (n : String)
    (ct : List Nat) (rest : List (String × List Nat))
    (seen : List (String × String)) (h : ct.length < 100) :
    seenAfter md5 ((n, ct) :: rest) seen = seenAfter md5 rest seen := by
  simp [seenAfter, h]

/-- Unfolding: `seenAfter` leaves the dict unchanged on a repeated digest. -/
theorem seenAfter_cons_found (md5 : List Nat → String) (n : String)
    (ct : List Nat) (rest : List (String × List Nat))
    (seen : List (String × String)) (orig : String) (h : ¬ ct.length < 100)
    (hl : lookupHash seen (md5 ct) = some orig) :
    seenAfter md5 ((n, ct) :: rest) seen = seenAfter md5 rest seen := by
  simp [seenAfter, h, hl]

/-- Unfolding: `seenAfter` records a first-seen digest. -/
theorem seenAfter_cons_new (md5 : List Nat → String) (n : String)
    (ct : List Nat) (rest : List (String × List Nat))
    (seen : List (String × String)) (h : ¬ ct.length < 100)
    (hl : lookupHash seen (md5 ct) = none) :
    seenAfter md5 ((n, ct) :: rest) seen
      = seenAfter md5 rest ((md5 ct, n) :: seen) := by
  simp [seenAfter, h, hl]

/-- Membership in the scan output, relative to an arbitrary starting dict:
`(d, o)` is reported exactly when the listing splits as
`pre ++ (d, c) :: post` with `c` at/above the floor and the dict reached
after `pre` maps `md5 c` to `o`. -/
theorem dedupScan_mem (md5 : List Nat → String) (d o : String) :
    ∀ (files : List (String × List Nat)) (seen : List (String × String)),
      (d, o) ∈ dedupScan md5 files seen ↔
        ∃ pre c post, files = pre ++ (d, c) :: post ∧ 100 ≤ c.length ∧
          lookupHash (seenAfter md5 pre seen) (md5 c) = some o := by
  intro files
  induction files with
  | nil =>
    intro seen
    constructor
    · intro h
      exact absurd h (by simp [dedupScan])
    · rintro ⟨pre, c, post, hf, -, -⟩
      exact absurd hf (by simp)
  | cons f rest ih =>
    obtain ⟨n, ct⟩ := f
    intro seen
    by_cases hsm : ct.length < 100
    · rw [dedupScan_cons_small md5 n ct rest seen hsm, ih seen]
      constructor
      · rintro ⟨pre, c, post, hf, hlen, hlook⟩
        refine ⟨(n, ct) :: pre, c, post, by rw [hf]; rfl, hlen, ?_⟩
        rw [seenAfter_cons_small md5 n ct pre seen hsm]
        exact hlook
      · rintro ⟨pre, c, post, hf, hlen, hlook⟩
        cases pre with
        | nil =>
          simp only [List.nil_append, List.cons.injEq, Prod.mk.injEq] at hf
          rw [← hf.1.2] at hlen
          omega
        | cons p pre2 =>
          simp only [List.cons_append, List.cons.injEq] at hf
          refine ⟨pre2, c, post, hf.2, hlen, ?_⟩
          rw [← hf.1, seenAfter_cons_small md5 n ct pre2 seen hsm] at hlook
          exact hlook
    · cases hl : lookupHash seen (md5 ct) with
      | some orig =>
        rw [dedupScan_cons_found md5 n ct rest seen orig hsm hl, List.mem_cons, ih seen]
        constructor
        · rintro (heq | ⟨pre, c, post, hf, hlen, hlook⟩)
          · rw [Prod.mk.injEq] at heq
            refine ⟨[], ct, rest, by rw [heq.1, List.nil_append], by omega, ?_⟩
            show lookupHash seen (md5 ct) = some o
            rw [hl, heq.2]
          · refine ⟨(n, ct) :: pre, c, post, by rw [hf]; rfl, hlen, ?_⟩
            rw [seenAfter_cons_found md5 n ct pre seen orig hsm hl]
            exact hlook
        · rintro ⟨pre, c, post, hf, hlen, hlook⟩
          cases pre with
          | nil =>
            simp only [List.nil_append, List.cons.injEq, Prod.mk.injEq] at hf
            left
            have hco : lookupHash seen (md5 c) = some o := hlook
            rw [← hf.1.2] at hco
            rw [hl] at hco
            rw [Prod.mk.injEq]
            exact ⟨hf.1.1.symm, (Option.some.injEq _ _ ▸ hco).symm⟩
          | cons p pre2 =>
            simp only [List.cons_append, List.cons.injEq] at hf
            right
            refine ⟨pre2, c, post, hf.2, hlen, ?_⟩
            rw [← hf.1, seenAfter_cons_found md5 n ct pre2 seen orig hsm hl] at hlook
            exact hlook
      | none =>
        rw [dedupScan_cons_new md5 n ct rest seen hsm hl, ih ((md5 ct, n) :: seen)]
        constructor
        · rintro ⟨pre, c, post, hf, hlen, hlook⟩
          refine ⟨(n, ct) :: pre, c, post, by rw [hf]; rfl, hlen, ?_⟩
          rw [seenAfter_cons_new md5 n ct pre seen hsm hl]
          exact hlook
        · rintro ⟨pre, c, post, hf, hlen, hlook⟩
          cases pre with
          | nil =>
            simp only [List.nil_append, List.cons.injEq, Prod.mk.injEq] at hf
            have hco : lookupHash seen (md5 c) = some o := hlook
            rw [← hf.1.2, hl] at hco
            exact absurd hco (by simp)
          | cons p pre2 =>
            simp only [List.cons_append, List.cons.injEq] at hf
            refine ⟨pre2, c, post, hf.2, hlen, ?_⟩
            rw [← hf.1, seenAfter_cons_new md5 n ct pre2 seen hsm hl] at hlook
            exact hlook

/-- The dict reached after scanning a prefix answers a digest query with the
starting dict's answer if present, else with the first at/above-floor
owner of that digest in the prefix. -/
theorem lookupHash_seenAfter (md5 : List Nat → String) (h : String) :
    ∀ (pre : List (String × List Nat)) (seen : List (String × String)),
      lookupHash (seenAfter md5 pre seen) h =
        (match lookupHash seen h with
         | some v => some v
         | none => firstHashOwner md5 h pre) := by
  intro pre
  induction pre with
  | nil =>
    intro seen
    cases hls : lookupHash seen h <;> simp [seenAfter, firstHashOwner, hls]
  | cons f rest ih =>
    obtain ⟨n, ct⟩ := f
    intro seen
    by_cases hsm : ct.length < 100
    · rw [seenAfter_cons_small md5 n ct rest seen hsm, ih seen]
      have he : firstHashOwner md5 h ((n, ct) :: rest) = firstHashOwner md5 h rest := by
        show (if 100 ≤ ct.length ∧ md5 ct = h then some n
              else firstHashOwner md5 h rest) = _
        rw [if_neg (fun hc => absurd hc.1 (by omega))]
      rw [he]
    · cases hl : lookupHash seen (md5 ct) with
      | some orig =>
        rw [seenAfter_cons_found md5 n ct rest seen orig hsm hl, ih seen]
        by_cases hh : md5 ct = h
        · rw [← hh, hl]
        · have he : firstHashOwner md5 h ((n, ct) :: rest)
              = firstHashOwner md5 h rest := by
            show (if 100 ≤ ct.length ∧ md5 ct = h then some n
                  else firstHashOwner md5 h rest) = _
            rw [if_neg (fun hc => hh hc.2)]
          rw [he]
      | none =>
        rw [seenAfter_cons_new md5 n ct rest seen hsm hl, ih ((md5 ct, n) :: seen)]
        by_cases hh : md5 ct = h
        · have hlc : lookupHash ((md5 ct, n) :: seen) h = some n := by
            show (if md5 ct = h then some n else lookupHash seen h) = some n
            rw [if_pos hh]
          rw [hlc]
          have hln : lookupHash seen h = none := by rw [← hh]; exact hl
          rw [hln]
          have he : firstHashOwner md5 h ((n, ct) :: rest) = some n := by
            show (if 100 ≤ ct.length ∧ md5 ct = h then some n
                  else firstHashOwner md5 h rest) = some n
            rw [if_pos ⟨by omega, hh⟩]
          rw [he]
        · have hlc : lookupHash ((md5 ct, n) :: seen) h = lookupHash seen h := by
            show (if md5 ct = h then some n else lookupHash seen h) = _
            rw [if_neg hh]
          rw [hlc]
          have he : firstHashOwner md5 h ((n, ct) :: rest)
              = firstHashOwner md5 h rest := by
            show (if 100 ≤ ct.length ∧ md5 ct = h then some n
                  else firstHashOwner md5 h rest) = _
            rw [if_neg (fun hc => hh hc.2)]
          rw [he]

/-- With a digest collision-free on the relevant contents, the first owner
by digest is the first owner by byte content. -/
theorem firstHashOwner_eq_content (md5 : List Nat → String) (c : List Nat) :
    ∀ pre : List (String × List Nat),
      (∀ p ∈ pre, md5 p.2 = md5 c → p.2 = c) →
      firstHashOwner md5 (md5 c) pre = firstContentOwner c pre := by
  intro pre
  induction pre with
  | nil => intro _; rfl
  | cons f rest ih =>
    obtain ⟨n, ct⟩ := f
    intro hinj
    have hh : (md5 ct = md5 c) ↔ (ct = c) :=
      ⟨fun hx => hinj (n, ct) (List.mem_cons_self _ _) hx, fun hx => by rw [hx]⟩
    show (if 100 ≤ ct.length ∧ md5 ct = md5 c then some n
          else firstHashOwner md5 (md5 c) rest)
        = (if 100 ≤ ct.length ∧ ct = c then some n else firstContentOwner c rest)
    by_cases h1 : 100 ≤ ct.length ∧ md5 ct = md5 c
    · rw [if_pos h1, if_pos ⟨h1.1, hh.mp h1.2⟩]
    · rw [if_neg h1, if_neg (fun hx => h1 ⟨hx.1, hh.mpr hx.2⟩)]
      exact ih (fun p hp => hinj p (List.mem_cons_of_mem _ hp))

/-- Claim C9: with the whole-file digest collision-free on the directory's
contents (the identification of "equal hash" with "byte-identical content"
that the claim itself makes), the scan reports `(d, o)` exactly when the
directory listing contains a file `d` of size at least 100 bytes strictly
after a file `o`, `o` is the first file of size at least 100 whose content
is byte-identical to `d`'s, and their contents are equal.  Hence files
below the 100-byte floor are never reported on either side, the first-seen
path is the canonical original, and two files differing in any byte are
never reported as a pair. -/
theorem dedup_pairs_characterization (md5 : List Nat → String)
    (files : List (String × List Nat))
    (hinj : ∀ p ∈ files, ∀ q ∈ files, md5 p.2 = md5 q.2 → p.2 = q.2)
    (d o : String) :
    (d, o) ∈ dedupScan md5 files [] ↔
      ∃ pre c post, files = pre ++ (d, c) :: post ∧ 100 ≤ c.length ∧
        firstContentOwner c pre = some o := by
  rw [dedupScan_mem md5 d o files []]
  constructor
  · rintro ⟨pre, c, post, hf, hlen, hlook⟩
    refine ⟨pre, c, post, hf, hlen, ?_⟩
    have hpinj : ∀ p ∈ pre, md5 p.2 = md5 c → p.2 = c := by
      intro p hp hpc
      have hpf : p ∈ files := by
        rw [hf]
        exact List.mem_append_left _ hp
      have hcf : (d, c) ∈ files := by
        rw [hf]
        exact List.mem_append_right _ (List.mem_cons_self _ _)
      exact hinj p hpf (d, c) hcf hpc
    rw [lookupHash_seenAfter md5 (md5 c) pre []] at hlook
    rw [← firstHashOwner_eq_content md5 c pre hpinj]
    exact hlook
  · rintro ⟨pre, c, post, hf, hlen, hown⟩
    refine ⟨pre, c, post, hf, hlen, ?_⟩
    have hpinj : ∀ p ∈ pre, md5 p.2 = md5 c → p.2 = c := by
      intro p hp hpc
      have hpf : p ∈ files := by
        rw [hf]
        exact List.mem_append_left _ hp
      have hcf : (d, c) ∈ files := by
        rw [hf]
        exact List.mem_append_right _ (List.mem_cons_self _ _)
      exact hinj p hpf (d, c) hcf hpc
    rw [lookupHash_seenAfter md5 (md5 c) pre []]
    show firstHashOwner md5 (md5 c) pre = some o
    rw [firstHashOwner_eq_content md5 c pre hpinj]
    exact hown

/-- Witness for C9: two byte-identical 100-byte files under a (trivially
collision-free on these contents) digest; the later file is reported
against the first-seen one. -/
theorem dedup_pairs_characterization_witness :
    (∀ p ∈ wDfiles, ∀ q ∈ wDfiles,
      (fun _ : List Nat => "h") p.2 = (fun _ : List Nat => "h") q.2 → p.2 = q.2) ∧
    (("b", "a") ∈ dedupScan (fun _ => "h") wDfiles [] ↔
      ∃ pre c post, wDfiles = pre ++ ("b", c) :: post ∧ 100 ≤ c.length ∧
        firstContentOwner c pre = some "a") :=
  ⟨by decide, dedup_pairs_characterization (fun _ => "h") wDfiles (by decide) "b" "a"⟩

/-! ### Claim C10 (confirmed) -/

/-- Claim C10: `_normalize_page_size` always lands in `[1, 30]` — values above
30 clamp to 30, values below 1 clamp to 1, in-range values pass through,
and an unparseable input yields 30.  By contrast, the `run` prologue
raises `ValueError` for non-positive `workers`, `max_pages` and
`max_results`, while a non-positive page size does not abort the run: with
otherwise valid arguments the run proceeds and silently clamps it to 1. -/
theorem normalize_page_size_spec (ps : Option Int) :
    1 ≤ normalizePageSize ps ∧ normalizePageSize ps ≤ 30 ∧
    (∀ n : Int, ps = some n → 30 < n → normalizePageSize ps = 30) ∧
    (∀ n : Int, ps = some n → n < 1 → normalizePageSize ps = 1) ∧
    (∀ n : Int, ps = some n → 1 ≤ n → n ≤ 30 → normalizePageSize ps = n) ∧
    (ps = none → normalizePageSize ps = 30) ∧
    (∀ w : Int, w ≤ 0 → cninfoRunCheck "index" none none (some w)
      = Except.error "workers must be positive") ∧
    (∀ m : Int, m ≤ 0 → cninfoRunCheck "index" (some m) none (some 3)
      = Except.error "max-pages must be positive") ∧
    (∀ m : Int, m ≤ 0 → cninfoRunCheck "index" none (some m) (some 3)
      = Except.error "max-results must be positive") ∧
    cninfoRunPageSize "index" none none (some 3) true (some (-5))
      = Except.ok 1 := by
  have hsome : ∀ n : Int, normalizePageSize (some n) = max 1 (min n 30) :=
    fun n => rfl
  have hnone : normalizePageSize none = max 1 (min 30 30) := rfl
  refine ⟨?_, ?_, ?_, ?_, ?_, ?_, ?_, ?_, ?_, rfl⟩
  · cases ps with
    | none => rw [hnone]; omega
    | some n => rw [hsome]; omega
  · cases ps with
    | none => rw [hnone]; omega
    | some n => rw [hsome]; omega
  · intro n hps hn
    rw [hps, hsome]
    omega
  · intro n hps hn
    rw [hps, hsome]
    omega
  · intro n hps h1 h30
    rw [hps, hsome]
    omega
  · intro hps
    rw [hps, hnone]
    omega
  · intro w hw
    simp [cninfoRunCheck, optNonpos, hw]
  · intro m hm
    simp [cninfoRunCheck, optNonpos, hm]
  · intro m hm
    simp [cninfoRunCheck, optNonpos, hm]

/-- Witness for C10 at the concrete over-limit input 50. -/
theorem normalize_page_size_spec_witness :
    1 ≤ normalizePageSize (some 50) ∧ normalizePageSize (some 50) ≤ 30 ∧
    (∀ n : Int, some (50 : Int) = some n → 30 < n → normalizePageSize (some 50) = 30) ∧
    (∀ n : Int, some (50 : Int) = some n → n < 1 → normalizePageSize (some 50) = 1) ∧
    (∀ n : Int, some (50 : Int) = some n → 1 ≤ n → n ≤ 30 →
      normalizePageSize (some 50) = n) ∧
    (some (50 : Int) = none → normalizePageSize (some 50) = 30) ∧
    (∀ w : Int, w ≤ 0 → cninfoRunCheck "index" none none (some w)
      = Except.error "workers must be positive") ∧
    (∀ m : Int, m ≤ 0 → cninfoRunCheck "index" (some m) none (some 3)
      = Except.error "max-pages must be positive") ∧
    (∀ m : Int, m ≤ 0 → cninfoRunCheck "index" none (some m) (some 3)
      = Except.error "max-results must be positive") ∧
    cninfoRunPageSize "index" none none (some 3) true (some (-5))
      = Except.ok 1 :=
  normalize_page_size_spec (some 50)

end UnifiedCrawler
